import Mathlib

/-!
Verification of the snoonetIRC/mycroft excerpt: the sherlock nick-tracking
plugin (`plugins/sherlock.py`) and the paste/shorten registry helper
(`cloudbot/util/web.py`), shallowly embedded in Lean 4.

Strings are modelled through their character lists; Python `dict`s are
modelled as association lists (insertion ordered, unique keys maintained by
the operations themselves); timestamps are `Nat`; asyncio futures are
identified by allocation numbers.
-/

namespace Mycroft

/-! ## Python string primitive operations (on `List Char`) -/

/-- `s.lstrip(c)`: drop every leading occurrence of the character `c`. -/
def lstripChar (c : Char) (l : List Char) : List Char :=
  l.dropWhile (fun x => x = c)

/-- `s.rstrip(c)`: drop every trailing occurrence of the character `c`. -/
def rstripChar (c : Char) (l : List Char) : List Char :=
  (l.reverse.dropWhile (fun x => x = c)).reverse

/-- Split at the first occurrence of `c`: `some (before, after)` when `c`
occurs, `none` otherwise. -/
def splitFirst (c : Char) : List Char → Option (List Char × List Char)
  | [] => none
  | x :: xs =>
    if x = c then some ([], xs)
    else match splitFirst c xs with
      | some (a, b) => some (x :: a, b)
      | none => none

/-- `s.partition(c)`: `(head, found, tail)` where `head` is the text before
the first `c`, and `tail` the text after it; when `c` does not occur the
whole string is the head and the tail is empty (Python returns `(s, "", "")`). -/
def partitionChar (c : Char) (l : List Char) : List Char × Bool × List Char :=
  match splitFirst c l with
  | some (a, b) => (a, true, b)
  | none => (l, false, [])

/-- The whitespace characters `str.strip()` removes (ASCII portion of
Python's definition). -/
def isPySpace (c : Char) : Bool :=
  c = ' ' || c = '\t' || c = '\n' || c = '\r' || c = '\x0b' || c = '\x0c'

/-- `s.strip()`: remove leading and trailing whitespace. -/
def stripChars (l : List Char) : List Char :=
  ((l.dropWhile isPySpace).reverse.dropWhile isPySpace).reverse

/-- `s.strip()` on `String`. -/
def pyStrip (s : String) : String :=
  ⟨stripChars s.data⟩

/-! ## `rfc_casefold` (sherlock.py lines 60-67)

`RFC_CASEMAP = str.maketrans(dict(zip(string.ascii_uppercase + "[]\\",
string.ascii_lowercase + "{}|")))` builds a translation table pairing each
ASCII uppercase letter with its lowercase letter and `[`, `]`, `\` with
`{`, `}`, `|`; `str.translate` maps every character through the table,
leaving unlisted characters unchanged. -/

/-- `string.ascii_uppercase + "[]\\"` zipped with
`string.ascii_lowercase + "{}|"`. -/
def RFC_CASEMAP : List (Char × Char) :=
  ("ABCDEFGHIJKLMNOPQRSTUVWXYZ[]\\".data.zip "abcdefghijklmnopqrstuvwxyz\x7b\x7d|".data)

/-- One character through the translation table (`str.translate` semantics:
unlisted characters pass through unchanged). -/
def translateChar (c : Char) : Char :=
  match RFC_CASEMAP.find? (fun p => p.1 = c) with
  | some p => p.2
  | none => c

/-- `rfc_casefold(text)`: `text.translate(RFC_CASEMAP)`. -/
def rfc_casefold (s : String) : String :=
  ⟨s.data.map translateChar⟩

/-! ## Observation tables (`hosts` / `addrs` / `masks`) and `update_user_data`

Each table has columns `nick, <value>, created, seen, reg, nick_case` with
primary key `(nick, <value>)`; `update_user_data` (sherlock.py lines 77-93)
first runs `UPDATE table SET seen = now, nick_case = nick WHERE nick =
rfc_casefold(nick) AND col = value` and, when that touches zero rows,
inserts a fresh row with `created = seen = now` and `reg = False`. -/

structure Row where
  nick : String
  value : String
  created : Nat
  seen : Nat
  reg : Bool
  nick_case : String
  deriving DecidableEq, Repr

/-- The `WHERE nick == rfc_casefold(nick) AND column == value` clause. -/
def rowMatches (nick_cf value : String) (r : Row) : Bool :=
  r.nick = nick_cf && r.value = value

/-- `update_user_data(db, table, column_name, now, nick, value)` acting on
the list of rows of one table. -/
def update_user_data (tbl : List Row) (now : Nat) (nick value : String) :
    List Row :=
  let nick_cf := rfc_casefold nick
  let updated := tbl.map fun r =>
    if rowMatches nick_cf value r then { r with seen := now, nick_case := nick } else r
  if tbl.countP (rowMatches nick_cf value) = 0 then
    updated ++ [{ nick := nick_cf, value := value, created := now, seen := now,
                  reg := false, nick_case := nick }]
  else
    updated

/-! ## The pending-request correlator

`conn.memory["sherlock"]["futures"]` is a dict with one sub-dict per
request kind (`init_futures`: keys `user_host`, `user_ip`, `user_mask`),
each mapping an `rfc_casefold`ed nick to an asyncio future.  We model the
three sub-dicts as one association list keyed by `(kind, key)`, futures by
allocation numbers, and `conn.cmd` by a log of issued commands. -/

inductive Kind where
  | user_host
  | user_ip
  | user_mask
  deriving DecidableEq, Repr

structure SherlockState where
  /-- `conn.memory["sherlock"]["futures"]`: pending `(kind, key) ↦ future`. -/
  futures : List (Kind × String × Nat)
  /-- Allocator for fresh future identities (`create_future`). -/
  nextFut : Nat
  /-- Commands sent via `conn.cmd(cmd, nick)`, in order. -/
  issued : List (String × String)
  deriving DecidableEq, Repr

/-- `futs[nick_cf]` lookup in the sub-dict for `kind`. -/
def lookupFut (s : SherlockState) (kind : Kind) (key : String) : Option Nat :=
  (s.futures.find? fun e => e.1 = kind && e.2.1 = key).map fun e => e.2.2

/-- `del futs[nick_cf]` (with `suppress(KeyError)`: deleting an absent key
is a no-op). -/
def removeFut (s : SherlockState) (kind : Kind) (key : String) : SherlockState :=
  { s with futures := s.futures.filter fun e => !(e.1 = kind && e.2.1 = key) }

/-- The synchronous head of `await_command_response` (lines 164-171): look
up the pending future for `(name, rfc_casefold(nick))`; when none exists,
create one, store it and issue `conn.cmd(cmd, nick)`.  There is no await
point between the lookup and the store, so under cooperative scheduling
this step is atomic.  Returns the new state and the future waited on. -/
def requestStart (s : SherlockState) (kind : Kind) (cmd nick : String) :
    SherlockState × Nat :=
  let nick_cf := rfc_casefold nick
  match lookupFut s kind nick_cf with
  | some fut => (s, fut)
  | none =>
    ({ futures := s.futures ++ [(kind, nick_cf, s.nextFut)],
       nextFut := s.nextFut + 1,
       issued := s.issued ++ [(cmd, nick)] }, s.nextFut)

/-- How the wait on the future ends. -/
inductive WaitOutcome where
  | resolved (v : String)
  | timedOut
  | cancelled
  deriving DecidableEq, Repr

/-- Errors `await_command_response` can finish with. -/
inductive ReqError where
  | timeoutError
  | cancelledError
  deriving DecidableEq, Repr

/-- The `asyncio.wait_for(fut, 30)` bound in `await_response` (line 160). -/
def RESPONSE_TIMEOUT : Nat := 30

/-- `await_response(fut)`: the future's value if a resolution arrives
within `RESPONSE_TIMEOUT` time units, `TimeoutError` otherwise.  `arrival`
is the instant (relative to the start of the wait) and value of the
matching `resolve`, when one ever comes. -/
def await_response (arrival : Option (Nat × String)) : WaitOutcome :=
  match arrival with
  | some (t, v) => if t < RESPONSE_TIMEOUT then .resolved v else .timedOut
  | none => .timedOut

/-- `await_command_response(conn, name, cmd, nick)` (lines 163-179): start
(or join) the pending request, wait with `outcome`, and in the `finally`
block delete the map entry whatever happened. -/
def await_command_response (s : SherlockState) (kind : Kind) (cmd nick : String)
    (outcome : WaitOutcome) : SherlockState × Except ReqError String :=
  let s1 := (requestStart s kind cmd nick).1
  let res : Except ReqError String :=
    match outcome with
    | .resolved v => .ok v
    | .timedOut => .error .timeoutError
    | .cancelled => .error .cancelledError
  (removeFut s1 kind (rfc_casefold nick), res)

/-! ## Reply extraction and `handle_response_numerics`

List indexing `irc_paramlist[i]` raises `IndexError` when out of range, so
the extraction handlers return `Option`. -/

/-- `_handle_who_response(irc_paramlist)` (lines 138-139):
`return irc_paramlist[5], irc_paramlist[3]` — `(nick, value)`. -/
def _handle_who_response (irc_paramlist : List String) :
    Option (String × String) :=
  match irc_paramlist.get? 5, irc_paramlist.get? 3 with
  | some nick, some value => some (nick, value)
  | _, _ => none

/-- `_handle_userhost_response(irc_paramlist)` (lines 142-148): take
`irc_paramlist[1]`, strip leading `:`s, partition on the first `=`, drop
the first character of the value (the `+`/`-` away/here marker), strip
trailing `*`s (oper markers) from the key, partition the value on the
first `@` and keep only what follows it; returns `(nick, host)`. -/
def _handle_userhost_response (irc_paramlist : List String) :
    Option (String × String) :=
  match irc_paramlist.get? 1 with
  | none => none
  | some p =>
    let response := lstripChar ':' p.data
    let (nick, _, ident_host) := partitionChar '=' response
    let ident_host := ident_host.drop 1
    let nick := rstripChar '*' nick
    let (_ident, _, host) := partitionChar '@' ident_host
    some (⟨nick⟩, ⟨host⟩)

/-- `response_map` (lines 151-155): reply numeric ↦ (kind, extraction
handler). -/
def response_map (irc_command : String) :
    Option (Kind × (List String → Option (String × String))) :=
  if irc_command = "352" then some (.user_mask, _handle_who_response)
  else if irc_command = "302" then some (.user_host, _handle_userhost_response)
  else if irc_command = "340" then some (.user_ip, _handle_userhost_response)
  else none

/-- Ways `handle_response_numerics` can end: normally — with the new state
and the delivery `(future, value)` performed, if any — or raising
`IndexError` out of the extraction handler. -/
inductive NumericsResult where
  | ok (s : SherlockState) (delivered : Option (Nat × String))
  | indexError
  deriving DecidableEq, Repr

/-- `handle_response_numerics(conn, irc_command, irc_paramlist)` (lines
234-250): look the numeric up in `response_map` (absent: return), extract
`(nick, value)`, `futs.pop(rfc_casefold(nick))` (absent: return), and
`fut.set_result(value.strip())`. -/
def handle_response_numerics (s : SherlockState) (irc_command : String)
    (irc_paramlist : List String) : NumericsResult :=
  match response_map irc_command with
  | none => .ok s none
  | some (kind, handler) =>
    match handler irc_paramlist with
    | none => .indexError
    | some (nick, value) =>
      match lookupFut s kind (rfc_casefold nick) with
      | none => .ok s none
      | some fut => .ok (removeFut s kind (rfc_casefold nick)) (some (fut, pyStrip value))

/-! ## The snotice dispatcher

`HANDLERS` (lines 320-323) is the insertion-ordered dict
`{'nick': on_nickchange, 'connect': on_connect}`; `handle_snotice` (lines
253-262) walks it in order, matching each handler's configured regex
against the notice content, runs the first handler whose regex matches and
stops.  The regexes come from connection config, so matching is abstracted
as a function from handler name and content to an optional match object. -/

/-- The keys of `HANDLERS`, in dict insertion order. -/
def HANDLERS_ORDER : List String := ["nick", "connect"]

/-- `handle_snotice(db, event)`: returns which handler ran and with which
match object (`none` when no pattern matched).  `matcher name content`
stands for `get_regex(conn, name).match(content)`. -/
def handle_snotice {M : Type} (matcher : String → String → Option M)
    (content : String) : Option (String × M) :=
  HANDLERS_ORDER.findSome? fun name => (matcher name content).map fun m => (name, m)

/-! ## `on_nickchange`

(lines 277-298) For each of the three attributes, `_handle_set` resolves
the value for the **new** nick (`func(event.conn, new_nick)`) and then
runs `update_user_data` for the old nick and for the new nick with the
same timestamp `now`; a fourth coroutine repeats the mask round after a
60s delay.  The three lookups are modelled by resolver functions. -/

structure Tables where
  hosts : List Row
  addrs : List Row
  masks : List Row
  deriving DecidableEq, Repr

/-- `_handle_set(table, name, func)`: record `value` (resolved for the new
nick) under both nicks with the same `now`. -/
def handle_set (tbl : List Row) (now : Nat) (old_nick new_nick value : String) :
    List Row :=
  update_user_data (update_user_data tbl now old_nick value) now new_nick value

/-- `on_nickchange(db, event, match)` acting on the three tables.
`hostOf`, `addrOf`, `maskOf` stand for `get_user_host`, `get_user_ip`,
`get_user_mask` on `event.conn`; the mask round runs twice (once
immediately, once after the 60s `delay_call`). -/
def on_nickchange (ts : Tables) (now : Nat) (old_nick new_nick : String)
    (hostOf addrOf maskOf : String → String) : Tables :=
  { hosts := handle_set ts.hosts now old_nick new_nick (hostOf new_nick)
    addrs := handle_set ts.addrs now old_nick new_nick (addrOf new_nick)
    masks := handle_set (handle_set ts.masks now old_nick new_nick (maskOf new_nick))
      now old_nick new_nick (maskOf new_nick) }

/-! ## Derived predicates over the model -/

/-- At most one pending future per `(kind, key)` pair. -/
def atMostOnePending (s : SherlockState) : Prop :=
  ∀ (kind : Kind) (key : String),
    s.futures.countP (fun e => e.1 = kind && e.2.1 = key) ≤ 1

/-- Two rows collide on the table's primary key `(nick, <value>)`. -/
def sameKey (a b : Row) : Prop :=
  a.nick = b.nick ∧ a.value = b.value

/-- The `(nick, <value>)` primary key is unique across the table. -/
def tableKeysUnique (tbl : List Row) : Prop :=
  tbl.Pairwise fun a b => ¬sameKey a b

/-- The table records value `value` for (the casefold of) `nick` with
`seen` timestamp `now`. -/
def hasObs (tbl : List Row) (nick value : String) (now : Nat) : Prop :=
  ∃ r ∈ tbl, r.nick = rfc_casefold nick ∧ r.value = value ∧ r.seen = now

/-! ## `cloudbot/util/web.py`: `Registry` and `paste`

`Registry` wraps a dict `self._items`; dicts are association lists with
insertion order and (maintained by `register`) unique keys.  A pastebin's
`paste(data, ext)` either returns a string or raises `ServiceError`
(modelled `Except Unit String` — the concrete HTTP behavior is external),
so a pastebin's behavior on the one payload under consideration is just
such a value. -/

structure Registry (α : Type) where
  _items : List (String × α)
  deriving DecidableEq, Repr

/-- Dict lookup in `self._items` (first binding for the key; `register`
keeps keys unique). -/
def Registry.lookup (r : Registry α) (name : String) : Option α :=
  (r._items.find? fun p => p.1 = name).map fun p => p.2

/-- `Registry.register(name, item)` (lines 41-45): raises `ValueError`
("Attempt to register duplicate item") when the name is present — before
any mutation — and binds it otherwise.  The `Bool` records whether it
raised. -/
def Registry.register (r : Registry α) (name : String) (item : α) :
    Registry α × Bool :=
  if (r.lookup name).isSome then (r, true)
  else ({ _items := r._items ++ [(name, item)] }, false)

/-- `Registry.get(name)` (lines 47-48): `self._items.get(name)` — `None`
when absent. -/
def Registry.get (r : Registry α) (name : String) : Option α :=
  r.lookup name

/-- `Registry.__getitem__` (lines 59-60): `self._items[item]` — raises
`KeyError` (the `.error` case) when absent. -/
def Registry.getItem (r : Registry α) (name : String) : Except Unit α :=
  match r.lookup name with
  | some v => .ok v
  | none => .error ()

/-- The `while impl:` loop of `paste` (lines 96-105): try the current
pastebin; on success return its result, on `ServiceError` log and replace
`impl` with `bins.popitem()` — the LAST remaining item (dict LIFO order) —
until `bins` is exhausted.  `binsRev` is the remaining dict already
reversed, so `popitem` is the head. -/
def pasteLoop : Option (Except Unit String) → List (String × Except Unit String) →
    Option String
  | none, _ => none
  | some (.ok s), _ => some s
  | some (.error _), [] => none
  | some (.error _), b :: rest => pasteLoop (some b.2) rest

/-- `paste(data, ext, service, raise_on_no_paste)` (lines 93-110): copy the
registry, pop the named service as the first pastebin to try (`None` when
absent — then the loop never runs), fall back through the remaining
pastebins in reverse insertion order; when nothing succeeded, raise
`NoPasteException` (the `.error` case) if `raise_on_no_paste` else return
the string `"Unable to paste data"`.  The pastebins' behavior on the given
`data` is carried in the registry values. -/
def paste (pastebins : Registry (Except Unit String)) (service : String)
    (raise_on_no_paste : Bool) : Except Unit String :=
  let impl := pastebins.lookup service
  let bins := pastebins._items.filter fun b => !(b.1 = service)
  match pasteLoop impl bins.reverse with
  | some s => .ok s
  | none => if raise_on_no_paste then .error () else .ok "Unable to paste data"

/-! ## Lemmas about `rfc_casefold` -/

/-- No output of the translation table is itself a key of the table (the
lowercase/brace/pipe characters are not translated further). -/
theorem rfc_values_not_keys :
    ∀ p ∈ RFC_CASEMAP, RFC_CASEMAP.find? (fun q => q.1 = p.2) = none := by
  decide

theorem translateChar_idem (c : Char) :
    translateChar (translateChar c) = translateChar c := by
  rcases h : RFC_CASEMAP.find? (fun p => p.1 = c) with _ | p
  · simp only [translateChar, h]
  · have hmem := List.mem_of_find?_eq_some h
    simp only [translateChar, h, rfc_values_not_keys p hmem]

theorem rfc_casefold_idem (s : String) :
    rfc_casefold (rfc_casefold s) = rfc_casefold s := by
  simp only [rfc_casefold, List.map_map]
  exact congrArg String.mk
    (List.map_congr_left fun c _ => translateChar_idem c)

/-- Characters outside the translation table's keys pass through unchanged. -/
theorem translateChar_not_key (c : Char) (h : c ∉ RFC_CASEMAP.map Prod.fst) :
    translateChar c = c := by
  have hnone : RFC_CASEMAP.find? (fun p => p.1 = c) = none := by
    rw [List.find?_eq_none]
    intro x hx
    simp only [decide_eq_true_eq]
    intro hxc
    exact h (hxc ▸ List.mem_map_of_mem Prod.fst hx)
  simp only [translateChar, hnone]

/-! ## Lemmas about the correlator state -/

/-- When no request is pending for the key, `requestStart` stores the fresh
future under it, and any `rfc_casefold`-equivalent nick finds it. -/
theorem lookupFut_requestStart (s : SherlockState) (kind : Kind) (cmd k K : String)
    (hvar : rfc_casefold K = rfc_casefold k)
    (hnone : lookupFut s kind (rfc_casefold k) = none) :
    lookupFut (requestStart s kind cmd k).1 kind (rfc_casefold K) =
      some (requestStart s kind cmd k).2 := by
  have hfind : s.futures.find? (fun e => e.1 = kind && e.2.1 = rfc_casefold k) = none := by
    simpa [lookupFut] using hnone
  rw [hvar]
  simp [requestStart, hnone, lookupFut, hfind]

/-- `removeFut` leaves no pending entry for the removed key. -/
theorem lookupFut_removeFut (s : SherlockState) (kind : Kind) (key : String) :
    lookupFut (removeFut s kind key) kind key = none := by
  simp only [lookupFut, removeFut, Option.map_eq_none']
  rw [List.find?_eq_none]
  intro x hx
  have h2 := List.of_mem_filter hx
  simp only [Bool.not_eq_true', Bool.and_eq_false_imp, decide_eq_true_eq,
    decide_eq_false_iff_not] at h2
  simpa using h2

/-- C4: `rfc_casefold` is idempotent; it maps each ASCII uppercase letter
(codepoints 65+i, i < 26) to its lowercase letter (97+i) and `[`, `]`, `\`
to `{`, `}`, `|`, leaving every character outside the translation table's
keys unchanged; and since the request side and the reply side both apply
it to the nick, a resolve arriving for any case variant `K` of a requested
nick `k` (any `K` with the same casefold, which covers the
bracket/backslash-to-brace/pipe aliases) finds the pending future that the
request for `k` created. -/
theorem C4_rfc_casefold :
    (∀ s, rfc_casefold (rfc_casefold s) = rfc_casefold s)
    ∧ (∀ i < 26, translateChar (Char.ofNat (65 + i)) = Char.ofNat (97 + i))
    ∧ translateChar '[' = '{' ∧ translateChar ']' = '}' ∧ translateChar '\\' = '|'
    ∧ (∀ c, c ∉ RFC_CASEMAP.map Prod.fst → translateChar c = c)
    ∧ rfc_casefold "K[]\\" = rfc_casefold "k\x7b\x7d|"
    ∧ (∀ (s : SherlockState) (kind : Kind) (cmd k K : String),
        rfc_casefold K = rfc_casefold k →
        lookupFut s kind (rfc_casefold k) = none →
        lookupFut (requestStart s kind cmd k).1 kind (rfc_casefold K) =
          some (requestStart s kind cmd k).2) :=
  ⟨rfc_casefold_idem, by decide, by decide, by decide, by decide,
   translateChar_not_key, by decide, lookupFut_requestStart⟩

theorem countP_futures_eq_zero (s : SherlockState) (kind : Kind) (key : String)
    (h : lookupFut s kind key = none) :
    s.futures.countP (fun e => e.1 = kind && e.2.1 = key) = 0 := by
  have hfind : s.futures.find? (fun e => e.1 = kind && e.2.1 = key) = none := by
    simpa [lookupFut] using h
  rw [List.countP_eq_zero]
  intro a ha
  exact fun hc => (List.find?_eq_none.mp hfind a ha) hc

theorem requestStart_atMostOne (s : SherlockState) (kind : Kind) (cmd nick : String)
    (hinv : atMostOnePending s) :
    atMostOnePending (requestStart s kind cmd nick).1 := by
  rcases h : lookupFut s kind (rfc_casefold nick) with _ | fut
  · intro kind' key'
    have hzero := countP_futures_eq_zero s kind (rfc_casefold nick) h
    simp only [requestStart, h, List.countP_append, List.countP_cons, List.countP_nil]
    by_cases h1 : kind = kind'
    · by_cases h2 : rfc_casefold nick = key'
      · subst h1; subst h2
        simp only [hzero]
        simp
      · have : (decide (kind = kind') && decide (rfc_casefold nick = key')) = false := by
          simp [h2]
        simp only [this]
        simpa using hinv kind' key'
    · have : (decide (kind = kind') && decide (rfc_casefold nick = key')) = false := by
        simp [h1]
      simp only [this]
      simpa using hinv kind' key'
  · simp only [requestStart, h]
    exact hinv

/-- C1: two concurrent `await_command_response` calls for the same
`(kind, rfc_casefold nick)` pair, both starting before any resolve: the
first caller appends exactly one outbound `conn.cmd` and creates the
pending future; the second caller (any casefold-equivalent nick) finds the
existing future, changes nothing and attaches to the same future; the map
holds exactly one slot for the pair and at most one per any pair. -/
theorem C1_request_dedup (s : SherlockState) (kind : Kind) (cmd nick1 nick2 : String)
    (hpend : lookupFut s kind (rfc_casefold nick1) = none)
    (hsame : rfc_casefold nick2 = rfc_casefold nick1)
    (hinv : atMostOnePending s) :
    (requestStart s kind cmd nick1).1.issued = s.issued ++ [(cmd, nick1)]
    ∧ lookupFut (requestStart s kind cmd nick1).1 kind (rfc_casefold nick1) =
        some (requestStart s kind cmd nick1).2
    ∧ requestStart (requestStart s kind cmd nick1).1 kind cmd nick2 =
        ((requestStart s kind cmd nick1).1, (requestStart s kind cmd nick1).2)
    ∧ atMostOnePending (requestStart (requestStart s kind cmd nick1).1 kind cmd nick2).1
    ∧ (requestStart (requestStart s kind cmd nick1).1 kind cmd nick2).1.futures.countP
        (fun e => e.1 = kind && e.2.1 = rfc_casefold nick1) = 1 := by
  have hlook := lookupFut_requestStart s kind cmd nick1 nick1 rfl hpend
  have hlook2 := lookupFut_requestStart s kind cmd nick1 nick2 hsame hpend
  have hsecond : requestStart (requestStart s kind cmd nick1).1 kind cmd nick2 =
      ((requestStart s kind cmd nick1).1, (requestStart s kind cmd nick1).2) := by
    rw [requestStart, hlook2]
  refine ⟨by simp [requestStart, hpend], hlook, hsecond, ?_, ?_⟩
  · rw [hsecond]
    exact requestStart_atMostOne s kind cmd nick1 hinv
  · rw [hsecond]
    have hzero := countP_futures_eq_zero s kind (rfc_casefold nick1) hpend
    simp [requestStart, hpend, List.countP_append, List.countP_cons, hzero]

/-- C1 witness: from the empty state, the deduplicated second request for
nick `"BOB"` leaves exactly one pending `user_host` slot for the key
`rfc_casefold "Bob"`. -/
theorem C1_request_dedup_witness :
    (requestStart (requestStart ⟨[], 0, []⟩ .user_host "USERHOST" "Bob").1
        .user_host "USERHOST" "BOB").1.futures.countP
      (fun e => e.1 = Kind.user_host && e.2.1 = rfc_casefold "Bob") = 1 :=
  (C1_request_dedup ⟨[], 0, []⟩ .user_host "USERHOST" "Bob" "BOB"
    (by decide) (by decide) (fun _ _ => Nat.zero_le 1)).2.2.2.2

/-- C2: a request whose resolve never arrives, or arrives only at or after
the 30-unit bound of `await_response`, fails with `TimeoutError`; and on
every exit path — resolved, timed out, or cancelled — the `finally` block
leaves no pending-map entry for `(kind, rfc_casefold nick)`. -/
theorem C2_timeout_cleanup (s : SherlockState) (kind : Kind) (cmd nick v : String)
    (t : Nat) (outcome : WaitOutcome) (hlate : RESPONSE_TIMEOUT ≤ t) :
    (await_command_response s kind cmd nick (await_response none)).2 =
      .error .timeoutError
    ∧ (await_command_response s kind cmd nick (await_response (some (t, v)))).2 =
      .error .timeoutError
    ∧ lookupFut (await_command_response s kind cmd nick outcome).1 kind
        (rfc_casefold nick) = none := by
  refine ⟨rfl, ?_, ?_⟩
  · simp [await_command_response, await_response, Nat.not_lt.mpr hlate]
  · exact lookupFut_removeFut _ kind (rfc_casefold nick)

/-- C2 witness: a resolve arriving exactly at the bound (t = 30) times the
concrete request out, and a cancelled wait still leaves no map entry. -/
theorem C2_timeout_cleanup_witness :
    (await_command_response ⟨[], 0, []⟩ .user_ip "USERIP" "Alice"
        (await_response (some (30, "1.2.3.4")))).2 =
      .error .timeoutError
    ∧ lookupFut (await_command_response ⟨[], 0, []⟩ .user_ip "USERIP" "Alice"
        .cancelled).1 .user_ip (rfc_casefold "Alice") = none :=
  ⟨(C2_timeout_cleanup ⟨[], 0, []⟩ .user_ip "USERIP" "Alice" "1.2.3.4" 30
      .cancelled (by decide)).2.1,
   (C2_timeout_cleanup ⟨[], 0, []⟩ .user_ip "USERIP" "Alice" "1.2.3.4" 30
      .cancelled (by decide)).2.2⟩

/-- C3: for an inbound reply numeric with a `response_map` entry whose
extraction succeeds, `handle_response_numerics` returns silently and
changes nothing when no pending future exists for
`(kind, rfc_casefold nick)`, and otherwise pops exactly that entry and
delivers the whitespace-stripped value to its future exactly once;
after the pop the map holds no entry for the key. -/
theorem C3_resolve_or_ignore (s : SherlockState) (irc_command : String)
    (irc_paramlist : List String) (kind : Kind)
    (handler : List String → Option (String × String)) (nick value : String)
    (hmap : response_map irc_command = some (kind, handler))
    (hext : handler irc_paramlist = some (nick, value)) :
    handle_response_numerics s irc_command irc_paramlist =
      (match lookupFut s kind (rfc_casefold nick) with
       | none => .ok s none
       | some fut => .ok (removeFut s kind (rfc_casefold nick))
           (some (fut, pyStrip value)))
    ∧ lookupFut (removeFut s kind (rfc_casefold nick)) kind (rfc_casefold nick) =
        none := by
  constructor
  · simp only [handle_response_numerics, hmap, hext]
  · exact lookupFut_removeFut s kind (rfc_casefold nick)

/-- C3 witness: a 302 (USERHOST) reply for `"Bob"` pops the pending
`user_host` future stored under `"bob"` and delivers the host. -/
theorem C3_resolve_or_ignore_witness :
    handle_response_numerics ⟨[(.user_host, "bob", 7)], 8, []⟩ "302"
        ["me", ":Bob=+ident@host.example"] =
      .ok (removeFut ⟨[(.user_host, "bob", 7)], 8, []⟩ .user_host
            (rfc_casefold "Bob"))
          (some (7, pyStrip "host.example")) :=
  (C3_resolve_or_ignore ⟨[(.user_host, "bob", 7)], 8, []⟩ "302"
    ["me", ":Bob=+ident@host.example"] .user_host _handle_userhost_response
    "Bob" "host.example" rfl (by decide)).1

/-! ## Lemmas about `update_user_data` -/

/-- Shape of `update_user_data` when the `UPDATE` clause matched a row. -/
theorem update_user_data_of_found (tbl : List Row) (now : Nat) (nick value : String)
    (hc : tbl.countP (rowMatches (rfc_casefold nick) value) ≠ 0) :
    update_user_data tbl now nick value =
      tbl.map fun r => if rowMatches (rfc_casefold nick) value r
        then { r with seen := now, nick_case := nick } else r := by
  simp only [update_user_data, if_neg hc]

/-- Shape of `update_user_data` when the `UPDATE` clause matched no row. -/
theorem update_user_data_of_missing (tbl : List Row) (now : Nat) (nick value : String)
    (hc : tbl.countP (rowMatches (rfc_casefold nick) value) = 0) :
    update_user_data tbl now nick value =
      tbl ++ [{ nick := rfc_casefold nick, value := value, created := now,
                seen := now, reg := false, nick_case := nick }] := by
  have hall : ∀ r ∈ tbl, ¬(rowMatches (rfc_casefold nick) value r = true) :=
    List.countP_eq_zero.mp hc
  have hmap : (tbl.map fun r => if rowMatches (rfc_casefold nick) value r
      then { r with seen := now, nick_case := nick } else r) = tbl := by
    conv_rhs => rw [← List.map_id tbl]
    exact List.map_congr_left fun r hr => by rw [if_neg (hall r hr)]; rfl
  simp only [update_user_data, if_pos hc, hmap]

/-- The per-row `UPDATE` action never changes the `nick` column. -/
theorem updRow_nick (now : Nat) (nick value : String) (x : Row) :
    (if rowMatches (rfc_casefold nick) value x
      then { x with seen := now, nick_case := nick } else x).nick = x.nick := by
  split <;> rfl

/-- The per-row `UPDATE` action never changes the value column. -/
theorem updRow_value (now : Nat) (nick value : String) (x : Row) :
    (if rowMatches (rfc_casefold nick) value x
      then { x with seen := now, nick_case := nick } else x).value = x.value := by
  split <;> rfl

/-- C5: `update_user_data` is an upsert on the `(nick, value)` primary
key: when a row for `(rfc_casefold nick, value)` exists, every such row
gets `seen := now` and `nick_case := nick` with `created` untouched, no
row is inserted and non-matching rows are untouched; when none exists,
exactly the one new row with `created = seen = now` is appended; key
uniqueness is preserved and no row's key is ever deleted. -/
theorem C5_upsert (tbl : List Row) (now : Nat) (nick value : String) :
    (tbl.countP (rowMatches (rfc_casefold nick) value) ≠ 0 →
      (update_user_data tbl now nick value).length = tbl.length
      ∧ (∀ r ∈ tbl, rowMatches (rfc_casefold nick) value r = true →
          { r with seen := now, nick_case := nick } ∈ update_user_data tbl now nick value)
      ∧ (∀ r ∈ tbl, rowMatches (rfc_casefold nick) value r = false →
          r ∈ update_user_data tbl now nick value))
    ∧ (tbl.countP (rowMatches (rfc_casefold nick) value) = 0 →
      update_user_data tbl now nick value =
        tbl ++ [{ nick := rfc_casefold nick, value := value, created := now,
                  seen := now, reg := false, nick_case := nick }])
    ∧ (tableKeysUnique tbl → tableKeysUnique (update_user_data tbl now nick value))
    ∧ (∀ r ∈ tbl, ∃ r' ∈ update_user_data tbl now nick value,
        r'.nick = r.nick ∧ r'.value = r.value) := by
  refine ⟨?_, update_user_data_of_missing tbl now nick value, ?_, ?_⟩
  · intro hc
    rw [update_user_data_of_found tbl now nick value hc]
    refine ⟨List.length_map _ _, ?_, ?_⟩
    · intro r hr hmatch
      exact List.mem_map.mpr ⟨r, hr, if_pos hmatch⟩
    · intro r hr hmatch
      exact List.mem_map.mpr ⟨r, hr, if_neg (by simp [hmatch])⟩
  · intro hu
    by_cases hc : tbl.countP (rowMatches (rfc_casefold nick) value) = 0
    · rw [update_user_data_of_missing tbl now nick value hc]
      rw [tableKeysUnique, List.pairwise_append]
      refine ⟨hu, List.pairwise_singleton _ _, ?_⟩
      intro a ha b hb
      rw [List.mem_singleton] at hb
      subst hb
      have hnot := List.countP_eq_zero.mp hc a ha
      simp only [rowMatches, Bool.and_eq_true, decide_eq_true_eq] at hnot
      intro hk
      exact hnot ⟨hk.1, hk.2⟩
    · rw [update_user_data_of_found tbl now nick value hc]
      rw [tableKeysUnique, List.pairwise_map]
      refine hu.imp ?_
      intro a b hab hk
      apply hab
      rcases hk with ⟨h1, h2⟩
      rw [updRow_nick, updRow_nick] at h1
      rw [updRow_value, updRow_value] at h2
      exact ⟨h1, h2⟩
  · intro r hr
    by_cases hc : tbl.countP (rowMatches (rfc_casefold nick) value) = 0
    · rw [update_user_data_of_missing tbl now nick value hc]
      exact ⟨r, List.mem_append_left _ hr, rfl, rfl⟩
    · rw [update_user_data_of_found tbl now nick value hc]
      exact ⟨_, List.mem_map_of_mem
        (fun r => if rowMatches (rfc_casefold nick) value r
          then { r with seen := now, nick_case := nick } else r) hr,
        updRow_nick now nick value r, updRow_value now nick value r⟩

/-! ## Lemmas about recorded observations -/

/-- An `update_user_data` call records its own observation. -/
theorem update_user_data_hasObs (tbl : List Row) (now : Nat) (nick value : String) :
    hasObs (update_user_data tbl now nick value) nick value now := by
  by_cases hc : tbl.countP (rowMatches (rfc_casefold nick) value) = 0
  · rw [update_user_data_of_missing tbl now nick value hc]
    exact ⟨_, List.mem_append_right _ (List.mem_singleton_self _), rfl, rfl, rfl⟩
  · rw [update_user_data_of_found tbl now nick value hc]
    obtain ⟨r, hr, hm⟩ := List.countP_pos_iff.mp (Nat.pos_of_ne_zero hc)
    have hm' := hm
    simp only [rowMatches, Bool.and_eq_true, decide_eq_true_eq] at hm'
    exact ⟨{ r with seen := now, nick_case := nick },
      List.mem_map.mpr ⟨r, hr, if_pos hm⟩, hm'.1, hm'.2, rfl⟩

/-- A later `update_user_data` with the same timestamp keeps every
observation already recorded at that timestamp. -/
theorem update_user_data_hasObs_mono (tbl : List Row) (now : Nat)
    (nick' value' nick value : String)
    (h : hasObs tbl nick value now) :
    hasObs (update_user_data tbl now nick' value') nick value now := by
  obtain ⟨r, hr, h1, h2, h3⟩ := h
  by_cases hc : tbl.countP (rowMatches (rfc_casefold nick') value') = 0
  · rw [update_user_data_of_missing tbl now nick' value' hc]
    exact ⟨r, List.mem_append_left _ hr, h1, h2, h3⟩
  · rw [update_user_data_of_found tbl now nick' value' hc]
    refine ⟨(if rowMatches (rfc_casefold nick') value' r
        then { r with seen := now, nick_case := nick' } else r),
      List.mem_map.mpr ⟨r, hr, rfl⟩, ?_, ?_, ?_⟩
    · rw [updRow_nick]; exact h1
    · rw [updRow_value]; exact h2
    · split
      · rfl
      · exact h3

/-- `_handle_set` records the resolved value under both nicks. -/
theorem handle_set_hasObs (tbl : List Row) (now : Nat)
    (old_nick new_nick value : String) :
    hasObs (handle_set tbl now old_nick new_nick value) old_nick value now
    ∧ hasObs (handle_set tbl now old_nick new_nick value) new_nick value now := by
  unfold handle_set
  exact ⟨update_user_data_hasObs_mono _ now new_nick value old_nick value
      (update_user_data_hasObs tbl now old_nick value),
    update_user_data_hasObs _ now new_nick value⟩

/-- `_handle_set` keeps already-recorded observations of the same
timestamp. -/
theorem handle_set_hasObs_mono (tbl : List Row) (now : Nat)
    (old_nick new_nick value nick v : String)
    (h : hasObs tbl nick v now) :
    hasObs (handle_set tbl now old_nick new_nick value) nick v now :=
  update_user_data_hasObs_mono _ now new_nick value nick v
    (update_user_data_hasObs_mono _ now old_nick value nick v h)

/-- C7: after a nickname-change notice for `old_nick` → `new_nick`, each
attribute is resolved for the new nick only (the result depends only on
the resolvers' values at `new_nick`), and the resolved host, address and
mask are each recorded under both `rfc_casefold old_nick` and
`rfc_casefold new_nick` with the same timestamp `now`, so a lookup by
either nick finds them. -/
theorem C7_nickchange (ts : Tables) (now : Nat) (old_nick new_nick : String)
    (hostOf addrOf maskOf : String → String) :
    hasObs (on_nickchange ts now old_nick new_nick hostOf addrOf maskOf).hosts
      old_nick (hostOf new_nick) now
    ∧ hasObs (on_nickchange ts now old_nick new_nick hostOf addrOf maskOf).hosts
      new_nick (hostOf new_nick) now
    ∧ hasObs (on_nickchange ts now old_nick new_nick hostOf addrOf maskOf).addrs
      old_nick (addrOf new_nick) now
    ∧ hasObs (on_nickchange ts now old_nick new_nick hostOf addrOf maskOf).addrs
      new_nick (addrOf new_nick) now
    ∧ hasObs (on_nickchange ts now old_nick new_nick hostOf addrOf maskOf).masks
      old_nick (maskOf new_nick) now
    ∧ hasObs (on_nickchange ts now old_nick new_nick hostOf addrOf maskOf).masks
      new_nick (maskOf new_nick) now
    ∧ (∀ hostOf2 addrOf2 maskOf2 : String → String,
        hostOf2 new_nick = hostOf new_nick →
        addrOf2 new_nick = addrOf new_nick →
        maskOf2 new_nick = maskOf new_nick →
        on_nickchange ts now old_nick new_nick hostOf2 addrOf2 maskOf2 =
          on_nickchange ts now old_nick new_nick hostOf addrOf maskOf) := by
  refine ⟨(handle_set_hasObs ts.hosts now old_nick new_nick (hostOf new_nick)).1,
    (handle_set_hasObs ts.hosts now old_nick new_nick (hostOf new_nick)).2,
    (handle_set_hasObs ts.addrs now old_nick new_nick (addrOf new_nick)).1,
    (handle_set_hasObs ts.addrs now old_nick new_nick (addrOf new_nick)).2,
    handle_set_hasObs_mono _ now old_nick new_nick (maskOf new_nick) old_nick _
      (handle_set_hasObs ts.masks now old_nick new_nick (maskOf new_nick)).1,
    handle_set_hasObs_mono _ now old_nick new_nick (maskOf new_nick) new_nick _
      (handle_set_hasObs ts.masks now old_nick new_nick (maskOf new_nick)).2,
    ?_⟩
  intro f g m hf hg hm
  simp only [on_nickchange, hf, hg, hm]

/-- C8: `handle_snotice` tests the notice text against the configured
patterns in the fixed `HANDLERS` order — `nick` first, then `connect` —
and runs exactly the handler paired with the first matching pattern,
passing it that pattern's match object; when neither pattern matches, no
handler runs.  In particular when both patterns match, only the `nick`
handler runs (first-match-wins, not longest-match). -/
theorem C8_snotice_dispatch {M : Type} (matcher : String → String → Option M)
    (content : String) :
    handle_snotice matcher content =
      (match matcher "nick" content with
       | some m => some ("nick", m)
       | none =>
         match matcher "connect" content with
         | some m => some ("connect", m)
         | none => none) := by
  rcases h1 : matcher "nick" content with _ | m1 <;>
    rcases h2 : matcher "connect" content with _ | m2 <;>
      simp [handle_snotice, HANDLERS_ORDER, h1, h2]

/-- C9: `Registry.register` raises `ValueError` on a duplicate name and in
that case leaves the registry untouched; on a fresh name it raises
nothing, binds the name to the item and leaves every other binding as it
was; `Registry.get` returns `None` for an unregistered name while
indexing (`__getitem__`) raises `KeyError` for it. -/
theorem C9_registry {α : Type} (r : Registry α) (name other : String) (item : α) :
    ((r.lookup name).isSome = true →
      Registry.register r name item = (r, true))
    ∧ ((r.lookup name).isSome = false →
      (Registry.register r name item).2 = false
      ∧ (Registry.register r name item).1.lookup name = some item
      ∧ (other ≠ name →
          (Registry.register r name item).1.lookup other = r.lookup other))
    ∧ (r.lookup name = none →
        r.get name = none ∧ r.getItem name = .error ()) := by
  refine ⟨?_, ?_, ?_⟩
  · intro h
    simp [Registry.register, h]
  · intro h
    have hnone : r.lookup name = none := Option.not_isSome_iff_eq_none.mp (by simp [h])
    have hfind : r._items.find? (fun p => p.1 = name) = none := by
      simpa [Registry.lookup] using hnone
    refine ⟨by simp [Registry.register, h], ?_, ?_⟩
    · simp only [Registry.register, h, Bool.false_eq_true, if_false]
      simp [Registry.lookup, List.find?_append, hfind]
    · intro hother
      simp only [Registry.register, h, Bool.false_eq_true, if_false]
      simp [Registry.lookup, List.find?_append, Ne.symm hother]
  · intro h
    exact ⟨h, by simp [Registry.getItem, h]⟩

/-! ## Lemmas about `paste` -/

/-- When every remaining pastebin raises `ServiceError`, the loop runs
out. -/
theorem pasteLoop_all_fail (l : List (String × Except Unit String)) (e : Unit)
    (hall : ∀ b ∈ l, b.2 = .error ()) :
    pasteLoop (some (.error e)) l = none := by
  induction l with
  | nil => rfl
  | cons b rest ih =>
    rw [pasteLoop, hall b (List.mem_cons_self b rest)]
    exact ih fun x hx => hall x (List.mem_cons_of_mem b hx)

/-- A value the loop returns came from the starting pastebin or from one
of the fallback pastebins. -/
theorem pasteLoop_mem_ok (impl : Option (Except Unit String))
    (l : List (String × Except Unit String)) (v : String)
    (h : pasteLoop impl l = some v) :
    impl = some (.ok v) ∨ ∃ b ∈ l, b.2 = .ok v := by
  induction l generalizing impl with
  | nil =>
    rcases impl with _ | pb
    · exact absurd h (by simp [pasteLoop])
    · rcases pb with e | s
      · exact absurd h (by simp [pasteLoop])
      · left
        rw [show s = v from Option.some.inj h]
  | cons b rest ih =>
    rcases impl with _ | pb
    · exact absurd h (by simp [pasteLoop])
    · rcases pb with e | s
      · rw [pasteLoop] at h
        rcases ih (some b.2) h with hb | ⟨x, hx, hxv⟩
        · exact Or.inr ⟨b, List.mem_cons_self b rest, Option.some.inj hb⟩
        · exact Or.inr ⟨x, List.mem_cons_of_mem b hx, hxv⟩
      · left
        rw [show s = v from Option.some.inj h]

/-- When the starting pastebin or any fallback succeeds, the loop returns
a value. -/
theorem pasteLoop_succeeds (pb : Except Unit String)
    (l : List (String × Except Unit String))
    (h : (∃ v, pb = .ok v) ∨ ∃ b ∈ l, ∃ v, b.2 = .ok v) :
    ∃ v, pasteLoop (some pb) l = some v := by
  induction l generalizing pb with
  | nil =>
    rcases h with ⟨v, rfl⟩ | ⟨b, hb, _⟩
    · exact ⟨v, rfl⟩
    · cases hb
  | cons b rest ih =>
    rcases pb with e | s
    · have h' : (∃ v, b.2 = .ok v) ∨ ∃ x ∈ rest, ∃ v, x.2 = .ok v := by
        rcases h with ⟨v, hv⟩ | ⟨x, hx, hv⟩
        · cases hv
        · rcases List.mem_cons.mp hx with rfl | hx'
          · exact Or.inl hv
          · exact Or.inr ⟨x, hx', hv⟩
      rw [pasteLoop]
      exact ih b.2 h'
    · exact ⟨s, rfl⟩

/-- The loop never runs when the named service was not registered. -/
theorem pasteLoop_none (l : List (String × Except Unit String)) :
    pasteLoop none l = none := by
  cases l <;> rfl

/-- The loop returns the current pastebin's result on success. -/
theorem pasteLoop_ok (v : String) (l : List (String × Except Unit String)) :
    pasteLoop (some (.ok v)) l = some v := by
  cases l <;> rfl

/-- In an association list with pairwise-distinct keys, any member
carrying the searched key is the entry `find?` returns. -/
theorem find?_key_unique {α : Type} (l : List (String × α)) (k : String)
    (hnd : (l.map Prod.fst).Nodup) (x y : String × α)
    (hfind : l.find? (fun p => p.1 = k) = some x)
    (hy : y ∈ l) (hyk : y.1 = k) : y = x := by
  induction l with
  | nil => cases hy
  | cons a rest ih =>
    rw [List.map_cons, List.nodup_cons] at hnd
    rcases List.mem_cons.mp hy with rfl | hy'
    · rw [List.find?_cons_of_pos _ (by simpa using hyk)] at hfind
      exact Option.some.inj hfind
    · by_cases hak : a.1 = k
      · refine absurd ?_ hnd.1
        have hm := List.mem_map_of_mem Prod.fst hy'
        rw [hyk] at hm
        rw [hak]
        exact hm
      · rw [List.find?_cons_of_neg _ (by simpa using hak)] at hfind
        exact ih hnd.2 hfind hy'

/-- C10 counterexample: with a single registered pastebin `"good"` whose
paste succeeds, a call naming the unregistered service `"bad"` fails —
returning `"Unable to paste data"` (or raising `NoPasteException` under
the flag) — even though a registered pastebin remains that would succeed,
so the claim's "falls back to another remaining registered pastebin until
one succeeds" and its failure condition "the named service does not exist
and no other remains" do not hold for the code. -/
theorem C10_paste_counterexample :
    paste ⟨[("good", Except.ok "res")]⟩ "bad" false = .ok "Unable to paste data"
    ∧ paste ⟨[("good", Except.ok "res")]⟩ "bad" true = .error ()
    ∧ (⟨[("good", Except.ok "res")]⟩ : Registry (Except Unit String)).lookup
        "bad" = none
    ∧ (⟨[("good", Except.ok "res")]⟩ : Registry (Except Unit String)).lookup
        "good" = some (Except.ok "res") :=
  ⟨rfl, rfl, rfl, rfl⟩

/-- C10 (amended): `paste` first tries the pastebin registered under the
given service name and, each time a `ServiceError` is raised, falls back
to another remaining registered pastebin until one succeeds, returning the
first successful result; but when the named service is not registered, no
pastebin is tried at all — even if other registered pastebins would
succeed — and the call fails; it also fails when every registered pastebin
fails; `ServiceError` never propagates to the caller, and failure yields
the string `"Unable to paste data"` when `raise_on_no_paste` is false and
`NoPasteException` when it is true. -/
theorem C10_paste_fallback (pastebins : Registry (Except Unit String))
    (service : String) (flag : Bool) :
    (∀ v, pastebins.lookup service = some (.ok v) →
      paste pastebins service flag = .ok v)
    ∧ (pastebins.lookup service = none →
      paste pastebins service flag =
        if flag then .error () else .ok "Unable to paste data")
    ∧ ((∀ p ∈ pastebins._items, p.2 = Except.error ()) →
      paste pastebins service flag =
        if flag then .error () else .ok "Unable to paste data")
    ∧ ((pastebins._items.map Prod.fst).Nodup →
      (∃ pb, pastebins.lookup service = some pb) →
      (∃ p ∈ pastebins._items, ∃ v, p.2 = .ok v) →
      ∃ v, paste pastebins service flag = .ok v
        ∧ ∃ p ∈ pastebins._items, p.2 = .ok v)
    ∧ (paste pastebins service flag = .error () → flag = true) := by
  refine ⟨?_, ?_, ?_, ?_, ?_⟩
  · intro v hv
    simp only [paste, hv, pasteLoop_ok]
  · intro hv
    simp only [paste, hv, pasteLoop_none]
  · intro hall
    rcases hv : pastebins.lookup service with _ | pb
    · simp only [paste, hv, pasteLoop_none]
    · have hpb : pb = .error () := by
        obtain ⟨p, hfind, hp2⟩ := Option.map_eq_some'.mp hv
        rw [← hp2]
        exact hall p (List.mem_of_find?_eq_some hfind)
      have hloop : pasteLoop (some pb)
          ((pastebins._items.filter fun b => !(b.1 = service)).reverse) = none := by
        rw [hpb]
        exact pasteLoop_all_fail _ () fun b hb =>
          hall b (List.mem_filter.mp (List.mem_reverse.mp hb)).1
      simp only [paste, hv, hloop]
  · intro hnd ⟨pb, hpb⟩ ⟨p, hpmem, v, hpok⟩
    obtain ⟨x, hfind, hx2⟩ := Option.map_eq_some'.mp hpb
    have hdisj : (∃ w, pb = .ok w) ∨
        ∃ b ∈ (pastebins._items.filter fun b => !(b.1 = service)).reverse,
          ∃ w, b.2 = .ok w := by
      by_cases hps : p.1 = service
      · left
        have := find?_key_unique pastebins._items service hnd x p hfind hpmem hps
        exact ⟨v, by rw [← hx2, ← this]; exact hpok⟩
      · right
        exact ⟨p, List.mem_reverse.mpr (List.mem_filter.mpr ⟨hpmem, by simp [hps]⟩),
          v, hpok⟩
    obtain ⟨w, hw⟩ := pasteLoop_succeeds pb _ hdisj
    refine ⟨w, by simp only [paste, hpb, hw], ?_⟩
    rcases pasteLoop_mem_ok (some pb) _ w hw with hcase | ⟨b, hb, hbw⟩
    · exact ⟨x, List.mem_of_find?_eq_some hfind, by rw [hx2]; exact Option.some.inj hcase⟩
    · exact ⟨b, (List.mem_filter.mp (List.mem_reverse.mp hb)).1, hbw⟩
  · intro herr
    rcases hv : pastebins.lookup service with _ | pb
    · rw [paste] at herr
      rw [hv] at herr
      rcases flag with _ | _
      · exact absurd herr (by simp [pasteLoop])
      · rfl
    · rw [paste] at herr
      rw [hv] at herr
      rcases hloop : pasteLoop (some pb)
          ((pastebins._items.filter fun b => !(b.1 = service)).reverse) with _ | w
      · rw [hloop] at herr
        rcases flag with _ | _
        · exact absurd herr (by simp)
        · rfl
      · rw [hloop] at herr
        exact absurd herr (by simp)

/-! ## Lemmas about the userhost-reply extraction -/

theorem dropWhile_eq_self_of_head {α : Type} (p : α → Bool) (l : List α)
    (h : ∀ c, l.head? = some c → p c = false) : l.dropWhile p = l := by
  cases l with
  | nil => rfl
  | cons x xs =>
    rw [List.dropWhile_cons, h x rfl]
    simp

theorem dropWhile_replicate_append {α : Type} (p : α → Bool) (a : α) (n : Nat)
    (l : List α) (ha : p a = true) :
    (List.replicate n a ++ l).dropWhile p = l.dropWhile p := by
  induction n with
  | zero => rfl
  | succ m ih => simp [List.replicate_succ, List.dropWhile_cons, ha, ih]

theorem splitFirst_append (c : Char) (a b : List Char) (ha : c ∉ a) :
    splitFirst c (a ++ c :: b) = some (a, b) := by
  induction a with
  | nil => simp [splitFirst]
  | cons x xs ih =>
    have hx : ¬(x = c) := fun h => ha (h ▸ List.mem_cons_self x xs)
    rw [List.cons_append]
    simp only [splitFirst, if_neg hx,
      ih fun h => ha (List.mem_cons_of_mem x h)]

theorem rstripChar_append_replicate (key : List Char) (st : Nat)
    (h : key.getLast? ≠ some '*') :
    rstripChar '*' (key ++ List.replicate st '*') = key := by
  unfold rstripChar
  rw [List.reverse_append, List.reverse_replicate]
  rw [dropWhile_replicate_append _ '*' st key.reverse (by simp)]
  rw [dropWhile_eq_self_of_head _ key.reverse ?_, List.reverse_reverse]
  intro c hc
  rw [List.head?_reverse] at hc
  simp only [decide_eq_false_iff_not]
  intro hstar
  exact h (hstar ▸ hc)

/-- C6: on a payload of the form `KEY=[+-]IDENT@HOST` — optionally
preceded by `:`s and with oper `*` markers after the key — the userhost
extraction strips the leading `:`s, splits on the first `=`, drops the
single leading `+`/`-` from the value, strips the trailing `*`s from the
key, splits the remainder on the first `@` and keeps only the part after
it, yielding `(KEY, HOST)`. -/
theorem C6_userhost_extraction (server key ident host : String) (nc st : Nat)
    (sign : Char)
    (hsign : sign = '+' ∨ sign = '-')
    (hhead : key.data.head? ≠ some ':')
    (heq : '=' ∉ key.data)
    (hlast : key.data.getLast? ≠ some '*')
    (hat : '@' ∉ ident.data) :
    _handle_userhost_response [server,
      ⟨List.replicate nc ':' ++ key.data ++ List.replicate st '*' ++
        '=' :: sign :: (ident.data ++ '@' :: host.data)⟩] =
      some (key, host) := by
  have h1 : lstripChar ':'
      (List.replicate nc ':' ++ (key.data ++ (List.replicate st '*' ++
        '=' :: sign :: (ident.data ++ '@' :: host.data)))) =
      key.data ++ (List.replicate st '*' ++
        '=' :: sign :: (ident.data ++ '@' :: host.data)) := by
    unfold lstripChar
    rw [dropWhile_replicate_append (fun x => decide (x = ':')) ':' nc _ (by simp)]
    apply dropWhile_eq_self_of_head
    intro c hc
    rw [decide_eq_false_iff_not]
    intro hcc
    subst hcc
    cases hk : key.data with
    | cons x t =>
      rw [hk, List.cons_append] at hc
      simp only [List.head?_cons] at hc
      exact hhead (by rw [hk]; simpa using hc)
    | nil =>
      rw [hk, List.nil_append] at hc
      cases st with
      | zero =>
        simp only [List.replicate, List.nil_append, List.head?_cons,
          Option.some.injEq] at hc
        exact absurd hc (by decide)
      | succ m =>
        rw [List.replicate_succ, List.cons_append] at hc
        simp only [List.head?_cons, Option.some.injEq] at hc
        exact absurd hc (by decide)
  have h2 : partitionChar '='
      (key.data ++ (List.replicate st '*' ++
        '=' :: sign :: (ident.data ++ '@' :: host.data))) =
      (key.data ++ List.replicate st '*', true,
        sign :: (ident.data ++ '@' :: host.data)) := by
    unfold partitionChar
    rw [← List.append_assoc]
    rw [splitFirst_append '=' (key.data ++ List.replicate st '*') _ ?_]
    intro hm
    rcases List.mem_append.mp hm with hm' | hm'
    · exact heq hm'
    · exact absurd (List.mem_replicate.mp hm').2 (by decide)
  have h3 : rstripChar '*' (key.data ++ List.replicate st '*') = key.data :=
    rstripChar_append_replicate key.data st hlast
  have h4 : partitionChar '@' (ident.data ++ '@' :: host.data) =
      (ident.data, true, host.data) := by
    unfold partitionChar
    rw [splitFirst_append '@' ident.data host.data hat]
  simp only [_handle_userhost_response, List.get?, List.append_assoc, h1, h2,
    List.drop_succ_cons, List.drop_zero, List.drop_one, List.tail_cons, h3, h4]

/-- C6 witness: the payload `"Carol*=+ident@host.example"` yields key
`"Carol"` and value `"host.example"`. -/
theorem C6_userhost_extraction_witness :
    _handle_userhost_response ["server", "Carol*=+ident@host.example"] =
      some ("Carol", "host.example") :=
  C6_userhost_extraction "server" "Carol" "ident" "host.example" 0 1 '+'
    (Or.inl rfl) (by decide) (by decide) (by decide) (by decide)

end Mycroft
